import Mathlib

/-!
Verification development for the upload pipeline of a fake object-storage
server.  The Go sources are shallowly embedded: strings become `String`
(operated on through their `List Char` data), byte slices become `List Nat`
(each entry a byte value), Go maps become association lists or functions into
`Option`, and fallible operations return `Option`.
-/

/-! ### String primitives mirroring the Go `strings` package -/

/-- Model of the first-split part of Go `strings.SplitN(s, sep, 2)` for a
single-character separator: `some (a, b)` when `s = a ++ [c] ++ b` with `c`
not occurring in `a`; `none` when `c` does not occur (Go returns a one-element
slice in that case). -/
def splitFirst (c : Char) : List Char → Option (List Char × List Char)
  | [] => none
  | x :: xs =>
    if x = c then some ([], xs)
    else
      match splitFirst c xs with
      | none => none
      | some (p, q) => some (x :: p, q)

/-- Value of a nonempty all-digit string, `none` otherwise.  Helper for the
model of Go `strconv.Atoi`. -/
def digitsVal (l : List Char) : Option Nat :=
  if l = [] then none
  else if l.all Char.isDigit then
    some (l.foldl (fun acc c => acc * 10 + (c.toNat - 48)) 0)
  else none

/-- Model of Go `strconv.Atoi`: an optional `+`/`-` sign followed by a
nonempty digit string.  (The `int` overflow check of the Go implementation is
not modelled; the integers in every claim are far below that bound.) -/
def atoi (l : List Char) : Option Int :=
  match l with
  | [] => none
  | c :: rest =>
    if c = '+' then (digitsVal rest).map (fun n => (n : Int))
    else if c = '-' then (digitsVal rest).map (fun n => -(n : Int))
    else (digitsVal l).map (fun n => (n : Int))

/-! ### Content-Range parser (`parseContentRange` in the source) -/

/-- Embedding of the Go `contentRange` struct.  Field defaults are the Go
zero values; error returns of the parser are modelled as `none`, so partially
filled values are never observed. -/
structure ContentRange where
  KnownRange : Bool := false
  KnownTotal : Bool := false
  Start : Int := 0
  End : Int := 0
  Total : Int := 0
deriving DecidableEq

/-- The `"bytes "` unit marker required by `parseContentRange`. -/
def bytesPre : List Char := "bytes ".data

/-- Embedding of `parseContentRange`: requires the `"bytes "` unit, splits the
remainder at the first `/` into range and total, parses the range either as
`*` (unknown, sentinel -1) or `start-end` integers, parses the total either as
`*` (unknown, sentinel -1, rejected when the range is also unknown) or an
integer. -/
def parseContentRange (r : String) : Option ContentRange :=
  if bytesPre.isPrefixOf r.data then
    match splitFirst '/' (r.data.drop bytesPre.length) with
    | none => none
    | some (a, t) =>
      match
        (if a = ['*'] then some (false, (-1 : Int), (-1 : Int))
         else
           match splitFirst '-' a with
           | none => none
           | some (x, y) =>
             match atoi x, atoi y with
             | some sx, some sy => some (true, sx, sy)
             | _, _ => none) with
      | none => none
      | some (kr, st, en) =>
        if t = ['*'] then
          if kr = false then none
          else some { KnownRange := kr, KnownTotal := false, Start := st, End := en, Total := -1 }
        else
          match atoi t with
          | none => none
          | some tt =>
            some { KnownRange := kr, KnownTotal := true, Start := st, End := en, Total := tt }
  else none

/-! ### Integrity digests (`crc32cChecksum`, `md5Hash`, base64 encodings)

The Go code delegates to `hash/crc32` (Castagnoli table), `crypto/md5` and
`encoding/base64`; those library functions are embedded here as executable
Lean definitions of the same algorithms.  Content bytes are `Nat`s taken mod
256 where they are consumed. -/

/-- Truncation to a 32-bit word. -/
def w32 (n : Nat) : Nat := n % 4294967296

/-- Bitwise complement on 32-bit words. -/
def wnot (x : Nat) : Nat := 4294967295 ^^^ w32 x

/-- Left-rotation of a 32-bit word by `n` places. -/
def rotl (x n : Nat) : Nat := w32 (x * 2 ^ n) ||| (w32 x / 2 ^ (32 - n))

/-- The reversed Castagnoli polynomial used by `crc32.MakeTable(crc32.Castagnoli)`. -/
def crc32cPoly : Nat := 0x82F63B78

/-- One shift step of the bit-reflected CRC32 computation. -/
def crc32Shift (crc : Nat) : Nat :=
  if crc % 2 = 1 then (crc / 2) ^^^ crc32cPoly else crc / 2

/-- Consume one byte of input into the running (inverted) CRC state. -/
def crc32Update (crc b : Nat) : Nat :=
  Nat.iterate crc32Shift 8 (crc ^^^ (b % 256))

/-- CRC32C of a byte sequence, as a number. -/
def crc32cRaw (data : List Nat) : Nat :=
  (data.foldl crc32Update 4294967295) ^^^ 4294967295

/-- Model of `crc32cChecksum`: the CRC32C digest serialized big-endian, as
done by `digest.Sum` in `hash/crc32`. -/
def crc32cChecksum (content : List Nat) : List Nat :=
  [crc32cRaw content / 16777216 % 256,
   crc32cRaw content / 65536 % 256,
   crc32cRaw content / 256 % 256,
   crc32cRaw content % 256]

/-- The standard base64 alphabet. -/
def base64Chars : List Char :=
  "ABCDEFGHIJKLMNOPQRSTUVWXYZabcdefghijklmnopqrstuvwxyz0123456789+/".data

/-- Character of the standard base64 alphabet at a 6-bit index. -/
def b64At (n : Nat) : Char := base64Chars.getD n 'A'

/-- Standard base64 encoding with `=` padding, as `base64.StdEncoding.EncodeToString`. -/
def base64Encode : List Nat → List Char
  | [] => []
  | [a] => [b64At (a % 256 / 4), b64At (a % 4 * 16), '=', '=']
  | [a, b] => [b64At (a % 256 / 4), b64At (a % 4 * 16 + b % 256 / 16), b64At (b % 16 * 4), '=']
  | a :: b :: c :: rest =>
    b64At (a % 256 / 4) :: b64At (a % 4 * 16 + b % 256 / 16) ::
      b64At (b % 16 * 4 + c % 256 / 64) :: b64At (c % 256 % 64) :: base64Encode rest

/-- Model of `encodedChecksum` / `encodedHash`: base64 of a byte sequence. -/
def encodedChecksum (checksum : List Nat) : String := String.mk (base64Encode checksum)

/-- Model of `encodedCrc32cChecksum`. -/
def encodedCrc32cChecksum (content : List Nat) : String :=
  encodedChecksum (crc32cChecksum content)

/-- Per-round shift amounts of MD5. -/
def md5S : List Nat :=
  [7, 12, 17, 22, 7, 12, 17, 22, 7, 12, 17, 22, 7, 12, 17, 22,
   5, 9, 14, 20, 5, 9, 14, 20, 5, 9, 14, 20, 5, 9, 14, 20,
   4, 11, 16, 23, 4, 11, 16, 23, 4, 11, 16, 23, 4, 11, 16, 23,
   6, 10, 15, 21, 6, 10, 15, 21, 6, 10, 15, 21, 6, 10, 15, 21]

/-- Per-round additive constants of MD5. -/
def md5K : List Nat :=
  [0xd76aa478, 0xe8c7b756, 0x242070db, 0xc1bdceee,
   0xf57c0faf, 0x4787c62a, 0xa8304613, 0xfd469501,
   0x698098d8, 0x8b44f7af, 0xffff5bb1, 0x895cd7be,
   0x6b901122, 0xfd987193, 0xa679438e, 0x49b40821,
   0xf61e2562, 0xc040b340, 0x265e5a51, 0xe9b6c7aa,
   0xd62f105d, 0x02441453, 0xd8a1e681, 0xe7d3fbc8,
   0x21e1cde6, 0xc33707d6, 0xf4d50d87, 0x455a14ed,
   0xa9e3e905, 0xfcefa3f8, 0x676f02d9, 0x8d2a4c8a,
   0xfffa3942, 0x8771f681, 0x6d9d6122, 0xfde5380c,
   0xa4beea44, 0x4bdecfa9, 0xf6bb4b60, 0xbebfbc70,
   0x289b7ec6, 0xeaa127fa, 0xd4ef3085, 0x04881d05,
   0xd9d4d039, 0xe6db99e5, 0x1fa27cf8, 0xc4ac5665,
   0xf4292244, 0x432aff97, 0xab9423a7, 0xfc93a039,
   0x655b59c3, 0x8f0ccc92, 0xffeff47d, 0x85845dd1,
   0x6fa87e4f, 0xfe2ce6e0, 0xa3014314, 0x4e0811a1,
   0xf7537e82, 0xbd3af235, 0x2ad7d2bb, 0xeb86d391]

/-- The MD5 nonlinear mixing function of round `i`. -/
def md5F (i b c d : Nat) : Nat :=
  if i < 16 then (b &&& c) ||| (wnot b &&& d)
  else if i < 32 then (d &&& b) ||| (wnot d &&& c)
  else if i < 48 then b ^^^ c ^^^ d
  else c ^^^ (b ||| wnot d)

/-- The MD5 message-word index of round `i`. -/
def md5G (i : Nat) : Nat :=
  if i < 16 then i
  else if i < 32 then (5 * i + 1) % 16
  else if i < 48 then (3 * i + 5) % 16
  else 7 * i % 16

/-- One MD5 round on the state `(a, b, c, d)` with message words `m`. -/
def md5Round (m : List Nat) (st : Nat × Nat × Nat × Nat) (i : Nat) : Nat × Nat × Nat × Nat :=
  match st with
  | (a, b, c, d) =>
    (d, w32 (b + rotl (w32 (md5F i b c d + a + md5K.getD i 0 + m.getD (md5G i) 0)) (md5S.getD i 0)), b, c)

/-- Process one 16-word MD5 block. -/
def md5Block (st : Nat × Nat × Nat × Nat) (m : List Nat) : Nat × Nat × Nat × Nat :=
  match st, (List.range 64).foldl (md5Round m) st with
  | (a0, b0, c0, d0), (a, b, c, d) => (w32 (a0 + a), w32 (b0 + b), w32 (c0 + c), w32 (d0 + d))

/-- Fold the MD5 compression over consecutive 16-word blocks. -/
def md5Blocks (st : Nat × Nat × Nat × Nat) : List Nat → Nat × Nat × Nat × Nat
  | w0 :: w1 :: w2 :: w3 :: w4 :: w5 :: w6 :: w7 ::
    w8 :: w9 :: w10 :: w11 :: w12 :: w13 :: w14 :: w15 :: rest =>
    md5Blocks (md5Block st [w0, w1, w2, w3, w4, w5, w6, w7, w8, w9, w10, w11, w12, w13, w14, w15]) rest
  | _ => st

/-- Group bytes into little-endian 32-bit words. -/
def toWordsLE : List Nat → List Nat
  | a :: b :: c :: d :: rest =>
    (a % 256 + b % 256 * 256 + c % 256 * 65536 + d % 256 * 16777216) :: toWordsLE rest
  | _ => []

/-- Little-endian serialization of a 64-bit value. -/
def le8 (x : Nat) : List Nat :=
  [x % 256, x / 256 % 256, x / 65536 % 256, x / 16777216 % 256,
   x / 4294967296 % 256, x / 1099511627776 % 256,
   x / 281474976710656 % 256, x / 72057594037927936 % 256]

/-- Little-endian serialization of a 32-bit word. -/
def le4 (x : Nat) : List Nat := [x % 256, x / 256 % 256, x / 65536 % 256, x / 16777216 % 256]

/-- MD5 padding: a `0x80` byte, zeros to 56 mod 64, and the bit length mod 2^64
in little-endian. -/
def md5Pad (msg : List Nat) : List Nat :=
  msg.map (· % 256) ++ [128] ++
    List.replicate ((120 - (msg.length + 1) % 64) % 64) 0 ++
    le8 (msg.length * 8 % 18446744073709551616)

/-- Model of `md5Hash`: the 16-byte MD5 digest of a byte sequence. -/
def md5Hash (msg : List Nat) : List Nat :=
  match md5Blocks (0x67452301, 0xefcdab89, 0x98badcfe, 0x10325476) (toWordsLE (md5Pad msg)) with
  | (a, b, c, d) => le4 a ++ le4 b ++ le4 c ++ le4 d

/-- Model of `encodedMd5Hash`. -/
def encodedMd5Hash (content : List Nat) : String := encodedChecksum (md5Hash content)

/-! ### Object model and the concurrency-safe store (`object.go`) -/

/-- One entry of `storage.ACLRule` as used by `getObjectACL`. -/
structure ACLRule where
  Entity : String
  Role : String
deriving DecidableEq

/-- Embedding of the `Object` struct (the full field set used by the upload
handlers; the store operations only consult `BucketName` and `Name`).
`Content` is the byte sequence, `Metadata` the string map as an association
list. -/
structure Object where
  BucketName : String
  Name : String
  Content : List Nat
  ContentType : String
  ContentEncoding : String
  Crc32c : String
  Md5Hash : String
  ACL : List ACLRule
  Metadata : List (String × String)
deriving DecidableEq

/-- Model of `Object.id`: the bucket name and object name joined by `/`. -/
def Object.id (o : Object) : String := o.BucketName ++ "/" ++ o.Name

/-- The `buckets` map of the server: bucket name to object list, as an
association list (reads take the first matching key). -/
def Buckets : Type := List (String × List Object)

/-- Go map read with presence flag: `objects, ok := s.buckets[name]`. -/
def bGet : Buckets → String → Option (List Object)
  | [], _ => none
  | (k, v) :: t, b => if k = b then some v else bGet t b

/-- Go map read defaulting to the zero value `nil`, as in `s.buckets[name]`
used directly. -/
def bGetD (st : Buckets) (b : String) : List Object := (bGet st b).getD []

/-- Go map write `s.buckets[name] = l`. -/
def bSet : Buckets → String → List Object → Buckets
  | [], b, l => [(b, l)]
  | (k, v) :: t, b, l => if k = b then (b, l) :: t else (k, v) :: bSet t b l

/-- Index of the first list element satisfying a test, the scan done by
`findObject`. -/
def findIdxO (p : α → Bool) : List α → Option Nat
  | [] => none
  | a :: l => if p a then some 0 else (findIdxO p l).map (· + 1)

/-- Model of `findObject`: index in the object's bucket of the first object
with the same id, or `none` (Go: -1). -/
def findObject (st : Buckets) (obj : Object) : Option Nat :=
  findIdxO (fun o => obj.id == o.id) (bGetD st obj.BucketName)

/-- The bucket-list update performed by `CreateObject`: replace the object at
the found index, or append. -/
def upsertList (l : List Object) (obj : Object) : List Object :=
  match findIdxO (fun o => obj.id == o.id) l with
  | none => l ++ [obj]
  | some i => l.set i obj

/-- Model of `CreateObject`: store the object, overwriting an existing object
with the same identity; a missing bucket is created implicitly. -/
def CreateObject (st : Buckets) (obj : Object) : Buckets :=
  bSet st obj.BucketName (upsertList (bGetD st obj.BucketName) obj)

/-- The zero-valued probe object built by `GetObject` before calling
`findObject`. -/
def probeObject (b n : String) : Object :=
  { BucketName := b, Name := n, Content := [], ContentType := "",
    ContentEncoding := "", Crc32c := "", Md5Hash := "", ACL := [], Metadata := [] }

/-- Model of `GetObject`: the object with the given name in the given bucket,
or `none` (Go: an error). -/
def GetObject (st : Buckets) (b n : String) : Option Object :=
  match findObject st (probeObject b n) with
  | none => none
  | some i => (bGetD st b).get? i

/-- Model of `strings.Replace(s, pat, "", 1)`: remove the first occurrence of
`pat` (for an empty `pat` this is the identity, as in Go). -/
def replaceOnce (s pat : List Char) : List Char :=
  if pat.isPrefixOf s then s.drop pat.length
  else
    match s with
    | [] => []
    | c :: t => c :: replaceOnce t pat

/-- The comparison `objects[i].Name < objects[j].Name` of `ListObjects`,
relaxed to the lexicographic `≤` used by the sort below. -/
def nameLe (a b : Object) : Prop := a.Name.data ≤ b.Name.data

instance : DecidableRel nameLe := fun a b =>
  inferInstanceAs (Decidable (a.Name.data ≤ b.Name.data))

instance : IsTotal Object nameLe := ⟨fun a b => le_total a.Name.data b.Name.data⟩

instance : IsTrans Object nameLe := ⟨fun _ _ _ h h' => le_trans h h'⟩

/-- Model of `strings.Contains(s, pat)`: `pat` occurs contiguously in `s`
(always true for an empty `pat`). -/
def hasSub (pat : List Char) : List Char → Bool
  | [] => pat.isEmpty
  | a :: t => pat.isPrefixOf (a :: t) || hasSub pat t

/-- The per-object filter of `ListObjects`: keep names with the requested
name part as a leading part, and drop those whose remainder contains a
non-empty delimiter. -/
def listKeep (pre delim : String) (o : Object) : Bool :=
  pre.data.isPrefixOf o.Name.data &&
    ((delim == "") || !(hasSub delim.data (replaceOnce o.Name.data pre.data)))

/-- Model of `ListObjects`: `none` when the bucket is missing, otherwise the
bucket's objects sorted by name ascending and filtered by the criteria. -/
def ListObjects (st : Buckets) (bucketName pre delim : String) : Option (List Object) :=
  match bGet st bucketName with
  | none => none
  | some objects => some ((List.insertionSort nameLe objects).filter (listKeep pre delim))

/-! ### Upload handlers (`uploads.go` part of the source) -/

/-- Model of `getObjectACL`. -/
def getObjectACL (predefinedACL : String) : List ACLRule :=
  if predefinedACL = "publicRead" then [{ Entity := "allUsers", Role := "READER" }]
  else [{ Entity := "projectOwner", Role := "OWNER" }]

/-- Embedding of `jsonResponse`.  Defaults are the Go zero values; a zero
`status` is mapped to an HTTP status by the response writer outside this
package. -/
structure JsonResponse where
  status : Nat := 0
  errorMessage : String := ""
  data : Option Object := none
  header : List (String × String) := []
deriving DecidableEq

/-- `http.Header.Set`: replace the value of a key, or add it. -/
def setH : List (String × String) → String → String → List (String × String)
  | [], k, v => [(k, v)]
  | (k', v') :: t, k, v => if k' = k then (k, v) :: t else (k', v') :: setH t k v

/-- `http.Header.Get`: first value of a key. -/
def getH : List (String × String) → String → Option String
  | [], _ => none
  | (k, v) :: t, q => if k = q then some v else getH t q

/-- Model of `checkUploadPreconditions` over the two generation query
parameters (empty string = parameter absent) and the store consulted through
`GetObject` (`some` = the Go backend lookup succeeding). -/
def checkUploadPreconditions (st : Buckets) (bucketName objectName igm ignm : String) :
    Option JsonResponse :=
  if igm = "0" then
    match GetObject st bucketName objectName with
    | some _ => some { status := 412, errorMessage := "Precondition failed" }
    | none => none
  else if igm ≠ "" ∨ ignm ≠ "" then
    some { status := 501, errorMessage := "Precondition support not implemented" }
  else none

/-- Server state shared across requests: the resumable-session table
(`s.uploads`, a concurrent map modelled as a function into `Option`) and the
object store. -/
structure ServerState where
  uploads : String → Option Object
  buckets : Buckets

/-- `sync.Map.Store`. -/
def storeU (u : String → Option Object) (k : String) (v : Object) : String → Option Object :=
  fun k' => if k' = k then some v else u k'

/-- `sync.Map.Delete`. -/
def deleteU (u : String → Option Object) (k : String) : String → Option Object :=
  fun k' => if k' = k then none else u k'

/-- The parsed JSON metadata body (`multipartMetadata`). -/
structure MultipartMetadata where
  ContentType : String
  ContentEncoding : String
  Name : String
  Metadata : List (String × String)
deriving DecidableEq

/-- The inputs of a resumable-upload initiation that the handler consults.
Header and query values are strings with `""` meaning absent. -/
structure InitRequest where
  queryName : String
  predefinedACL : String
  contentEncoding : String
  metadata : MultipartMetadata
  uploadCommand : String
deriving DecidableEq

/-- The partial object registered by `resumableUpload`: only the fields
assigned in its `Object` literal are set, the rest stay zero-valued. -/
def initObject (bucketName : String) (r : InitRequest) : Object :=
  { BucketName := bucketName,
    Name := if r.queryName = "" then r.metadata.Name else r.queryName,
    Content := [], ContentType := "", ContentEncoding := r.contentEncoding,
    Crc32c := "", Md5Hash := "",
    ACL := getObjectACL r.predefinedACL, Metadata := r.metadata.Metadata }

/-- Model of `resumableUpload`.  `uploadID` stands for the hex-encoded random
token produced by `generateUploadID`, and `urlBase` for `s.URL()`; the
JSON-decode-failure and randomness-failure early returns (plain error
responses that register nothing) are outside the claims and not modelled. -/
def resumableUpload (bucketName urlBase uploadID : String) (r : InitRequest)
    (s : ServerState) : ServerState × JsonResponse :=
  let obj := initObject bucketName r
  let h0 := setH [] "Location" (urlBase ++ "/upload/resumable/" ++ uploadID)
  let h1 :=
    if r.uploadCommand = "start" then
      setH (setH h0 "X-Goog-Upload-URL" (urlBase ++ "/upload/resumable/" ++ uploadID))
        "X-Goog-Upload-Status" "active"
    else h0
  ({ uploads := storeU s.uploads uploadID obj, buckets := s.buckets },
   { data := some obj, header := h1 })

/-- The inputs of one chunk-append request (`uploadFileContent`).  The
`contentRange`, `contentType` and `uploadCommand` header values are strings
with `""` meaning absent; `no308` is the presence of `X-Guploader-No-308`. -/
structure ChunkRequest where
  uploadId : String
  body : List Nat
  contentRange : String
  contentType : String
  no308 : Bool
  uploadCommand : String

/-- The session object after one chunk: body appended, both digests
recomputed over the full accumulated content, content type taken from the
request header. -/
def chunkObject (o : Object) (body : List Nat) (ct : String) : Object :=
  { o with Content := o.Content ++ body,
           Crc32c := encodedCrc32cChecksum (o.Content ++ body),
           Md5Hash := encodedMd5Hash (o.Content ++ body),
           ContentType := ct }

/-- The Content-Range analysis of `uploadFileContent`: `none` models the
BadRequest on a malformed header; otherwise the commit decision together with
the `Range` response header entries.  An absent header commits
unconditionally with no `Range` header; a known range reports `bytes=0-end`
and commits iff the total is known and `end+1 >= total`; an unknown range
(stream terminator) reports the accumulated length and commits. -/
def commitDecision (cr : String) (accLen : Nat) : Option (Bool × List (String × String)) :=
  if cr = "" then some (true, [])
  else
    match parseContentRange cr with
    | none => none
    | some p =>
      if p.KnownRange = true then
        some (p.KnownTotal && decide (p.End + 1 ≥ p.Total),
          setH [] "Range" ("bytes=0-" ++ toString p.End))
      else some (true, setH [] "Range" ("bytes=0-" ++ toString accLen))

/-- The final-header rule of `uploadFileContent`: an
`X-Goog-Upload-Command: upload, finalize` header (compared by equality) marks
the response `X-Goog-Upload-Status: final`. -/
def finalizeH (cmd : String) (h : List (String × String)) : List (String × String) :=
  if cmd = "upload, finalize" then setH h "X-Goog-Upload-Status" "final" else h

/-- Model of `uploadFileContent`: resolve the session (404 when absent),
append the body and recompute digests, decide commit from the Content-Range
header (400 on a malformed one, leaving all state untouched).  On commit the
session is removed and the object stored; otherwise the session is
overwritten and the response is 308, or 200 with the override header when the
client sent `X-Guploader-No-308`. -/
def uploadFileContent (s : ServerState) (r : ChunkRequest) : ServerState × JsonResponse :=
  match s.uploads r.uploadId with
  | none => (s, { status := 404 })
  | some obj0 =>
    let obj := chunkObject obj0 r.body r.contentType
    match commitDecision r.contentRange obj.Content.length with
    | none =>
      (s, { status := 400, errorMessage := "invalid Content-Range: " ++ r.contentRange })
    | some (commit, h0) =>
      if commit then
        ({ uploads := deleteU s.uploads r.uploadId, buckets := CreateObject s.buckets obj },
         { status := 200, data := some obj, header := finalizeH r.uploadCommand h0 })
      else
        ({ uploads := storeU s.uploads r.uploadId obj, buckets := s.buckets },
         { status := if r.no308 then 200 else 308, data := some obj,
           header := finalizeH r.uploadCommand
             (if r.no308 then setH h0 "X-Http-Status-Code-Override" "308" else h0) })

/-! ### Multipart upload handler -/

/-- One multipart section: its `Content-Type` header, its raw bytes, and the
result of decoding it as JSON metadata when it is consumed as the first
section (`none` = decode failure). -/
structure MPart where
  contentType : String
  content : List Nat
  metaDecode : Option MultipartMetadata

/-- The zero-valued metadata struct a failed JSON decode leaves behind
(`loadMetadata` always returns a non-nil pointer). -/
def mdZero : MultipartMetadata := { ContentType := "", ContentEncoding := "", Name := "", Metadata := [] }

/-- The section loop of `multipartUpload`: the first section is decoded as
metadata (a decode failure aborts the loop with the error flag set), each
later section overwrites the content and content type.  Running off the end
of the sections is the normal `io.EOF` termination. -/
def mpLoop : Option MultipartMetadata → List Nat → String →
    List MPart → Option MultipartMetadata × List Nat × String × Bool
  | md, content, ct, [] => (md, content, ct, false)
  | none, content, _, p :: rest =>
    match p.metaDecode with
    | none => (some mdZero, content, "", true)
    | some m => mpLoop (some m) content m.ContentType rest
  | some m, _, _, p :: rest => mpLoop (some m) p.content p.contentType rest

/-- The object constructed and stored at the end of `multipartUpload`. -/
def mpBuild (bucketName objName : String) (m : MultipartMetadata) (content : List Nat)
    (contentType predACL : String) (st : Buckets) : JsonResponse × Buckets :=
  let obj : Object :=
    { BucketName := bucketName, Name := objName, Content := content,
      ContentType := contentType, ContentEncoding := m.ContentEncoding,
      Crc32c := encodedCrc32cChecksum content, Md5Hash := encodedMd5Hash content,
      ACL := getObjectACL predACL, Metadata := m.Metadata }
  ({ data := some obj }, CreateObject st obj)

/-- Model of `multipartUpload`.  `ctValid` is whether `mime.ParseMediaType`
accepted the Content-Type header.  The result `none` models a fatal nil
pointer dereference: when the body held no sections, `metadata` is still nil
and the handler reads `metadata.Name` (if the `name` query parameter is
empty) or `metadata.ContentEncoding` (when building the object). -/
def multipartUpload (bucketName queryName predACL igm ignm : String) (ctValid : Bool)
    (parts : List MPart) (st : Buckets) : Option (JsonResponse × Buckets) :=
  if ctValid = false then
    some ({ status := 400, errorMessage := "invalid Content-Type header" }, st)
  else
    match mpLoop none [] "" parts with
    | (md, content, contentType, decodeFailed) =>
      if decodeFailed then some ({ errorMessage := "metadata decode error" }, st)
      else
        match (if queryName = "" then md.map (fun m => m.Name) else some queryName) with
        | none => none
        | some objName =>
          match checkUploadPreconditions st bucketName objName igm ignm with
          | some resp => some (resp, st)
          | none =>
            match md with
            | none => none
            | some m => some (mpBuild bucketName objName m content contentType predACL st)

/-! ### Predicates used by the statements -/

/-- The malformed-range test of the failure enumeration: the range component
is not of the form `<integer>-<integer>`. -/
def rangeMalformed (a : List Char) : Bool :=
  match splitFirst '-' a with
  | none => true
  | some (x, y) => (atoi x).isNone || (atoi y).isNone

/-- The enumerated failure causes of Content-Range parsing as the
specification states them: missing `"bytes "` unit, missing `/`, a range or
total component that is not the required integer form, or range and total
both `*`. -/
def crFail (r : String) : Bool :=
  if bytesPre.isPrefixOf r.data then
    match splitFirst '/' (r.data.drop bytesPre.length) with
    | none => true
    | some (a, t) =>
      (!(decide (a = ['*'])) && rangeMalformed a) ||
        (!(decide (t = ['*'])) && (atoi t).isNone) ||
        (decide (a = ['*']) && decide (t = ['*']))
  else true

/-- Store well-formedness: in every present bucket list, each object carries
that bucket's name and object names are pairwise distinct (identity
uniqueness per bucket). -/
def bucketWF (st : Buckets) : Prop :=
  ∀ b l, bGet st b = some l →
    (∀ o ∈ l, o.BucketName = b) ∧ l.Pairwise (fun x y => x.Name ≠ y.Name)

/-! ### Concrete inputs for witnesses and counterexamples -/

/-- Session table holding one empty partial object under token `tk`. -/
def c2WitState : ServerState :=
  { uploads := fun k => if k = "tk" then some (probeObject "wb" "wo") else none, buckets := [] }

/-- First 1000-byte chunk of the three-chunk scenario. -/
def c2Wit1 : ChunkRequest :=
  { uploadId := "tk", body := List.replicate 1000 7, contentRange := "bytes 0-999/2600",
    contentType := "", no308 := false, uploadCommand := "" }

/-- Second 1000-byte chunk of the three-chunk scenario. -/
def c2Wit2 : ChunkRequest :=
  { uploadId := "tk", body := List.replicate 1000 8, contentRange := "bytes 1000-1999/2600",
    contentType := "", no308 := false, uploadCommand := "" }

/-- Final 600-byte chunk of the three-chunk scenario. -/
def c2Wit3 : ChunkRequest :=
  { uploadId := "tk", body := List.replicate 600 9, contentRange := "bytes 2000-2599/2600",
    contentType := "", no308 := false, uploadCommand := "" }

/-- Session table with one session under token `t`, used by concrete
chunk-append inputs. -/
def oneSessionState : ServerState :=
  { uploads := fun k => if k = "t" then some (probeObject "b" "o") else none, buckets := [] }

/-- A non-committing chunk append whose `X-Goog-Upload-Command` header
contains, but does not equal, `upload, finalize`. -/
def c7CtrReq : ChunkRequest :=
  { uploadId := "t", body := [], contentRange := "bytes 0-0/5",
    contentType := "", no308 := false, uploadCommand := "x upload, finalize" }

/-- A non-committing chunk append from a client that cannot process 308,
finalizing the upload. -/
def c7WitReq : ChunkRequest :=
  { uploadId := "t", body := [2], contentRange := "bytes 0-0/5",
    contentType := "", no308 := true, uploadCommand := "upload, finalize" }

/-- A committing chunk append (no Content-Range header) carrying a
Content-Type header. -/
def c10WitReq : ChunkRequest :=
  { uploadId := "t", body := [5], contentRange := "", contentType := "ctw",
    no308 := false, uploadCommand := "" }

/-- The three-object example store of the listing example (deliberately held
unsorted). -/
def exListStore : Buckets :=
  [("bucket", [probeObject "bucket" "d", probeObject "bucket" "a/b", probeObject "bucket" "a/c"])]

/-- A one-object, one-bucket store for the upsert witness. -/
def c9WitStore : Buckets := [("wb", [probeObject "wb" "x"])]

/-- An overwrite of the object named `x` with new content. -/
def c9WitObj : Object := { probeObject "wb" "x" with Content := [1] }

/-- A second overwrite of the same identity with different content. -/
def c9WitObj2 : Object := { probeObject "wb" "x" with Content := [2] }

/-! ### Supporting lemmas -/

theorem strData_inj {a b : String} (h : a.data = b.data) : a = b := by
  cases a; cases b; exact congrArg String.mk h

theorem strAppend_cancel {a b c : String} (h : a ++ b = a ++ c) : b = c := by
  apply strData_inj
  have hd : (a ++ b).data = (a ++ c).data := by rw [h]
  rw [String.data_append, String.data_append] at hd
  exact List.append_cancel_left hd

theorem objId_inj {o o' : Object} (h : o.BucketName = o'.BucketName) :
    o.id = o'.id ↔ o.Name = o'.Name := by
  constructor
  · intro hid
    unfold Object.id at hid
    rw [h] at hid
    exact strAppend_cancel hid
  · intro hn
    unfold Object.id
    rw [h, hn]

theorem bGet_bSet_self (st : Buckets) (b : String) (l : List Object) :
    bGet (bSet st b l) b = some l := by
  induction st with
  | nil => simp [bSet, bGet]
  | cons kv t ih =>
    obtain ⟨k, v⟩ := kv
    by_cases hk : k = b
    · simp [bSet, hk, bGet]
    · simp [bSet, hk, bGet, ih]

theorem bGet_bSet_ne (st : Buckets) {b b' : String} (l : List Object) (h : b' ≠ b) :
    bGet (bSet st b l) b' = bGet st b' := by
  induction st with
  | nil =>
    simp only [bSet, bGet]
    rw [if_neg fun hh => h hh.symm]
  | cons kv t ih =>
    obtain ⟨k, v⟩ := kv
    by_cases hk : k = b
    · subst hk
      simp only [bSet, if_pos rfl, bGet]
      rw [if_neg fun hh => h hh.symm, if_neg fun hh => h hh.symm]
    · simp only [bSet, if_neg hk, bGet, ih]

theorem bGetD_CreateObject_self (st : Buckets) (obj : Object) :
    bGetD (CreateObject st obj) obj.BucketName = upsertList (bGetD st obj.BucketName) obj := by
  unfold CreateObject bGetD
  rw [bGet_bSet_self]
  rfl

theorem findIdxO_eq_none {p : α → Bool} {l : List α} :
    findIdxO p l = none ↔ ∀ a ∈ l, p a = false := by
  induction l with
  | nil => simp [findIdxO]
  | cons a t ih =>
    rw [findIdxO]
    by_cases hp : p a
    · simp only [if_pos hp]
      constructor
      · intro h; cases h
      · intro h
        exact absurd (h a (List.mem_cons_self a t)) (by simp [hp])
    · simp only [if_neg hp]
      constructor
      · intro h x hx
        rcases List.mem_cons.mp hx with hx | hx
        · subst hx; simpa using hp
        · have ht : findIdxO p t = none := by
            cases hft : findIdxO p t with
            | none => rfl
            | some i => rw [hft] at h; simp at h
          exact ih.mp ht x hx
      · intro h
        have ht : findIdxO p t = none :=
          ih.mpr fun x hx => h x (List.mem_cons_of_mem a hx)
        rw [ht]; rfl

theorem upsertList_cons (a : Object) (t : List Object) (obj : Object) :
    upsertList (a :: t) obj =
      if obj.id == a.id then obj :: t else a :: upsertList t obj := by
  by_cases h : obj.id == a.id
  · simp [upsertList, findIdxO, h]
  · simp only [upsertList, findIdxO, h, Bool.false_eq_true, if_false, if_neg]
    cases hf : findIdxO (fun o => obj.id == o.id) t with
    | none => simp [hf]
    | some i => simp [hf, List.set]

theorem mem_upsertList {x obj : Object} {l : List Object} (h : x ∈ upsertList l obj) :
    x ∈ l ∨ x = obj := by
  induction l with
  | nil => simpa [upsertList, findIdxO] using h
  | cons a t ih =>
    rw [upsertList_cons] at h
    by_cases ha : obj.id == a.id
    · rw [if_pos ha] at h
      rcases List.mem_cons.mp h with h | h
      · exact Or.inr h
      · exact Or.inl (List.mem_cons_of_mem a h)
    · rw [if_neg ha] at h
      rcases List.mem_cons.mp h with h | h
      · exact Or.inl (h ▸ List.mem_cons_self a t)
      · rcases ih h with h | h
        · exact Or.inl (List.mem_cons_of_mem a h)
        · exact Or.inr h

theorem obj_mem_upsertList (l : List Object) (obj : Object) : obj ∈ upsertList l obj := by
  induction l with
  | nil => simp [upsertList, findIdxO]
  | cons a t ih =>
    rw [upsertList_cons]
    by_cases ha : obj.id == a.id
    · simp [ha]
    · simp only [ha, Bool.false_eq_true, if_false]
      exact List.mem_cons_of_mem a ih

theorem upsertList_find_self (l : List Object) (obj : Object) :
    ∃ i, findIdxO (fun o => obj.id == o.id) (upsertList l obj) = some i ∧
      (upsertList l obj).get? i = some obj := by
  induction l with
  | nil => exact ⟨0, by simp [upsertList, findIdxO], by simp [upsertList, findIdxO]⟩
  | cons a t ih =>
    rw [upsertList_cons]
    by_cases ha : obj.id == a.id
    · exact ⟨0, by simp [ha, findIdxO], by simp [ha]⟩
    · obtain ⟨i, hfind, hget⟩ := ih
      refine ⟨i + 1, ?_, ?_⟩
      · simp [ha, findIdxO, hfind]
      · simpa [ha] using hget

theorem GetObject_CreateObject (st : Buckets) (obj : Object) :
    GetObject (CreateObject st obj) obj.BucketName obj.Name = some obj := by
  have hpe : (probeObject obj.BucketName obj.Name).id = obj.id := rfl
  have hpb : (probeObject obj.BucketName obj.Name).BucketName = obj.BucketName := rfl
  obtain ⟨i, hfind, hget⟩ := upsertList_find_self (bGetD st obj.BucketName) obj
  simp only [GetObject, findObject, hpe, hpb, bGetD_CreateObject_self, hfind, hget]

theorem upsertList_bucketNames {l : List Object} {obj : Object} {b : String}
    (hb : ∀ o ∈ l, o.BucketName = b) (ho : obj.BucketName = b) :
    ∀ x ∈ upsertList l obj, x.BucketName = b := by
  intro x hx
  rcases mem_upsertList hx with h | h
  · exact hb x h
  · rw [h]; exact ho

theorem upsertList_pairwise {b : String} {obj : Object} (ho : obj.BucketName = b)
    (l : List Object) (hb : ∀ o ∈ l, o.BucketName = b)
    (hn : l.Pairwise (fun x y => x.Name ≠ y.Name)) :
    (upsertList l obj).Pairwise (fun x y => x.Name ≠ y.Name) := by
  induction l with
  | nil => simp [upsertList, findIdxO]
  | cons a t ih =>
    rw [upsertList_cons]
    have hab : a.BucketName = b := hb a (List.mem_cons_self a t)
    rcases List.pairwise_cons.mp hn with ⟨ha_t, hpt⟩
    by_cases hq : (obj.id == a.id) = true
    · rw [if_pos hq]
      have hname : obj.Name = a.Name := (objId_inj (ho.trans hab.symm)).mp (beq_iff_eq.mp hq)
      refine List.pairwise_cons.mpr ⟨?_, hpt⟩
      intro y hy
      rw [hname]
      exact ha_t y hy
    · rw [if_neg hq]
      refine List.pairwise_cons.mpr
        ⟨?_, ih (fun o ho' => hb o (List.mem_cons_of_mem a ho')) hpt⟩
      intro y hy
      rcases mem_upsertList hy with h | h
      · exact ha_t y h
      · rw [h]
        intro hcontra
        exact hq (beq_iff_eq.mpr ((objId_inj (ho.trans hab.symm)).mpr hcontra.symm))

theorem upsertList_countP {b : String} {obj : Object} (ho : obj.BucketName = b)
    (l : List Object) (hb : ∀ o ∈ l, o.BucketName = b)
    (hn : l.Pairwise (fun x y => x.Name ≠ y.Name)) :
    (upsertList l obj).countP (fun o => o.Name == obj.Name) = 1 := by
  induction l with
  | nil => simp [upsertList, findIdxO, List.countP_cons]
  | cons a t ih =>
    rw [upsertList_cons]
    have hab : a.BucketName = b := hb a (List.mem_cons_self a t)
    rcases List.pairwise_cons.mp hn with ⟨ha_t, hpt⟩
    by_cases hq : (obj.id == a.id) = true
    · rw [if_pos hq]
      have hname : obj.Name = a.Name := (objId_inj (ho.trans hab.symm)).mp (beq_iff_eq.mp hq)
      rw [List.countP_cons]
      have hzero : t.countP (fun o => o.Name == obj.Name) = 0 := by
        rw [List.countP_eq_zero]
        intro y hy hyn
        exact ha_t y hy ((beq_iff_eq.mp hyn).trans hname).symm
      rw [hzero]
      simp
    · rw [if_neg hq, List.countP_cons,
        ih (fun o ho' => hb o (List.mem_cons_of_mem a ho')) hpt]
      have hne : (a.Name == obj.Name) = false := by
        rw [beq_eq_false_iff_ne]
        intro hcontra
        exact hq (beq_iff_eq.mpr ((objId_inj (ho.trans hab.symm)).mpr hcontra.symm))
      simp [hne]

theorem bucketWF_CreateObject {st : Buckets} (hwf : bucketWF st) (obj : Object) :
    bucketWF (CreateObject st obj) := by
  intro b l hget
  by_cases hb : b = obj.BucketName
  · subst hb
    rw [CreateObject, bGet_bSet_self] at hget
    have hl : l = upsertList (bGetD st obj.BucketName) obj := (Option.some_inj.mp hget).symm
    have hl0 : (∀ o ∈ bGetD st obj.BucketName, o.BucketName = obj.BucketName) ∧
        (bGetD st obj.BucketName).Pairwise (fun x y => x.Name ≠ y.Name) := by
      cases hg : bGet st obj.BucketName with
      | none => simp [bGetD, hg]
      | some l0 => simpa [bGetD, hg] using hwf _ _ hg
    subst hl
    exact ⟨upsertList_bucketNames hl0.1 rfl, upsertList_pairwise rfl _ hl0.1 hl0.2⟩
  · rw [CreateObject, bGet_bSet_ne st _ hb] at hget
    exact hwf b l hget

theorem storeU_self (u : String → Option Object) (k : String) (v : Object) :
    storeU u k v k = some v := by simp [storeU]

theorem deleteU_self (u : String → Option Object) (k : String) : deleteU u k k = none := by
  simp [deleteU]

theorem getH_setH_self (h : List (String × String)) (k v : String) :
    getH (setH h k v) k = some v := by
  induction h with
  | nil => simp [setH, getH]
  | cons kv t ih =>
    obtain ⟨k', v'⟩ := kv
    by_cases hk : k' = k
    · simp [setH, hk, getH]
    · simp [setH, hk, getH, ih]

theorem getH_setH_ne (h : List (String × String)) {k k' : String} (v : String)
    (hne : k' ≠ k) : getH (setH h k v) k' = getH h k' := by
  induction h with
  | nil =>
    simp only [setH, getH]
    rw [if_neg fun hh => hne hh.symm]
  | cons kv t ih =>
    obtain ⟨k0, v0⟩ := kv
    by_cases hk : k0 = k
    · subst hk
      simp only [setH, if_pos rfl, getH]
      rw [if_neg fun hh => hne hh.symm, if_neg fun hh => hne hh.symm]
    · simp only [setH, if_neg hk, getH, ih]

theorem splitFirst_fst_not_mem {c : Char} :
    ∀ {l p q : List Char}, splitFirst c l = some (p, q) → c ∉ p := by
  intro l
  induction l with
  | nil => intro p q h; simp [splitFirst] at h
  | cons x xs ih =>
    intro p q h
    rw [splitFirst] at h
    by_cases hx : x = c
    · rw [if_pos hx] at h
      obtain ⟨hp, _⟩ := Prod.mk.injEq .. ▸ Option.some_inj.mp h
      rw [← hp]
      simp
    · rw [if_neg hx] at h
      cases hs : splitFirst c xs with
      | none => rw [hs] at h; simp at h
      | some pq =>
        obtain ⟨p', q'⟩ := pq
        rw [hs] at h
        obtain ⟨hp, _⟩ := Prod.mk.injEq .. ▸ Option.some_inj.mp h
        rw [← hp]
        intro hmem
        rcases List.mem_cons.mp hmem with hh | hh
        · exact hx hh.symm
        · exact ih hs hh

theorem atoi_nonneg {l : List Char} {v : Int} (hd : '-' ∉ l) (h : atoi l = some v) :
    0 ≤ v := by
  match l with
  | [] => simp [atoi] at h
  | c :: rest =>
    rw [atoi] at h
    by_cases hplus : c = '+'
    · rw [if_pos hplus] at h
      cases hdv : digitsVal rest with
      | none => rw [hdv] at h; simp at h
      | some n =>
        rw [hdv] at h
        have : v = (n : Int) := (Option.some_inj.mp (by simpa using h)).symm
        rw [this]
        exact Int.ofNat_nonneg n
    · rw [if_neg hplus] at h
      have hminus : ¬c = '-' := fun hc => hd (hc ▸ List.mem_cons_self c rest)
      rw [if_neg hminus] at h
      cases hdv : digitsVal (c :: rest) with
      | none => rw [hdv] at h; simp at h
      | some n =>
        rw [hdv] at h
        have : v = (n : Int) := (Option.some_inj.mp (by simpa using h)).symm
        rw [this]
        exact Int.ofNat_nonneg n

theorem parse_inv {r : String} {p : ContentRange} (h : parseContentRange r = some p) :
    (p.KnownRange = false → p.Start = -1 ∧ p.End = -1) ∧
    (p.KnownRange = true → 0 ≤ p.Start) ∧
    (p.KnownTotal = false → p.Total = -1) := by
  unfold parseContentRange at h
  split at h
  · split at h
    · simp at h
    · rename_i a t hsplit
      split at h
      · simp at h
      · rename_i kr st en hrange
        have hr : (kr = false → st = -1 ∧ en = -1) ∧ (kr = true → 0 ≤ st) := by
          split at hrange
          · simp only [Option.some_inj, Prod.mk.injEq] at hrange
            obtain ⟨hkr, hst, hen⟩ := hrange
            refine ⟨fun _ => ⟨hst.symm, hen.symm⟩, fun ht => ?_⟩
            rw [← hkr] at ht
            simp at ht
          · split at hrange
            · simp at hrange
            · rename_i x y hxy
              split at hrange
              · rename_i sx sy hax hay
                simp only [Option.some_inj, Prod.mk.injEq] at hrange
                obtain ⟨hkr, hst, hen⟩ := hrange
                refine ⟨fun hf => ?_, fun _ => ?_⟩
                · rw [← hkr] at hf
                  simp at hf
                · rw [← hst]
                  exact atoi_nonneg (splitFirst_fst_not_mem hxy) hax
              · simp at hrange
        split at h
        · split at h
          · simp at h
          · rename_i hkr
            have hp := (Option.some_inj.mp h).symm
            subst hp
            exact ⟨fun hf => absurd hf hkr, fun ht => hr.2 ht, fun _ => rfl⟩
        · split at h
          · simp at h
          · rename_i tt hat
            have hp := (Option.some_inj.mp h).symm
            subst hp
            exact ⟨fun hf => hr.1 hf, fun ht => hr.2 ht, fun hf => by simp at hf⟩
  · simp at h

theorem commitDecision_empty (n : Nat) : commitDecision "" n = some (true, []) := rfl

theorem commitDecision_parse_none {cr : String} (n : Nat) (hne : cr ≠ "")
    (hp : parseContentRange cr = none) : commitDecision cr n = none := by
  unfold commitDecision
  rw [if_neg hne, hp]

theorem commitDecision_knownRange {cr : String} {p : ContentRange} (n : Nat) (hne : cr ≠ "")
    (hp : parseContentRange cr = some p) (hkr : p.KnownRange = true) :
    commitDecision cr n =
      some (p.KnownTotal && decide (p.End + 1 ≥ p.Total),
        setH [] "Range" ("bytes=0-" ++ toString p.End)) := by
  unfold commitDecision
  rw [if_neg hne, hp]
  simp [hkr]

theorem uploadFileContent_commit {s : ServerState} {r : ChunkRequest} {o : Object}
    {h0 : List (String × String)} (hu : s.uploads r.uploadId = some o)
    (hcd : commitDecision r.contentRange (chunkObject o r.body r.contentType).Content.length
      = some (true, h0)) :
    uploadFileContent s r =
      ({ uploads := deleteU s.uploads r.uploadId,
         buckets := CreateObject s.buckets (chunkObject o r.body r.contentType) },
       { status := 200, data := some (chunkObject o r.body r.contentType),
         header := finalizeH r.uploadCommand h0 }) := by
  unfold uploadFileContent
  rw [hu]
  simp only [hcd]
  simp

theorem uploadFileContent_noncommit {s : ServerState} {r : ChunkRequest} {o : Object}
    {h0 : List (String × String)} (hu : s.uploads r.uploadId = some o)
    (hcd : commitDecision r.contentRange (chunkObject o r.body r.contentType).Content.length
      = some (false, h0)) :
    uploadFileContent s r =
      ({ uploads := storeU s.uploads r.uploadId (chunkObject o r.body r.contentType),
         buckets := s.buckets },
       { status := if r.no308 then 200 else 308,
         data := some (chunkObject o r.body r.contentType),
         header := finalizeH r.uploadCommand
           (if r.no308 then setH h0 "X-Http-Status-Code-Override" "308" else h0) }) := by
  unfold uploadFileContent
  rw [hu]
  simp only [hcd]
  simp

theorem uploadFileContent_badRange {s : ServerState} {r : ChunkRequest} {o : Object}
    (hu : s.uploads r.uploadId = some o)
    (hcd : commitDecision r.contentRange (chunkObject o r.body r.contentType).Content.length
      = none) :
    uploadFileContent s r =
      (s, { status := 400, errorMessage := "invalid Content-Range: " ++ r.contentRange }) := by
  unfold uploadFileContent
  rw [hu]
  simp only [hcd]

/-! ### Claim theorems -/

/-- C6: the Content-Range parser maps `bytes 0-999/2600`, `bytes */2600` and
`bytes 0-999/*` to the stated records, rejects `bytes */*`, and fails exactly
on a missing `bytes ` unit, a missing `/`, a range or total component that is
not of the required integer form, or range and total both `*`. -/
theorem C6_content_range_parse :
    parseContentRange "bytes 0-999/2600" =
      some { KnownRange := true, KnownTotal := true, Start := 0, End := 999, Total := 2600 } ∧
    parseContentRange "bytes */2600" =
      some { KnownRange := false, KnownTotal := true, Start := -1, End := -1, Total := 2600 } ∧
    parseContentRange "bytes 0-999/*" =
      some { KnownRange := true, KnownTotal := false, Start := 0, End := 999, Total := -1 } ∧
    parseContentRange "bytes */*" = none ∧
    (∀ r : String, parseContentRange r = none ↔ crFail r = true) := by
  refine ⟨by decide, by decide, by decide, by decide, ?_⟩
  intro r
  unfold parseContentRange crFail
  by_cases hpre : bytesPre.isPrefixOf r.data
  · rw [if_pos hpre, if_pos hpre]
    cases hs : splitFirst '/' (r.data.drop bytesPre.length) with
    | none => simp
    | some at' =>
      obtain ⟨a, t⟩ := at'
      dsimp only
      by_cases ha : a = ['*']
      · subst ha
        by_cases ht : t = ['*']
        · subst ht
          simp
        · cases hat : atoi t with
          | none => simp [hat, ht]
          | some tt => simp [hat, ht]
      · rw [if_neg ha]
        unfold rangeMalformed
        cases hxy : splitFirst '-' a with
        | none => simp [hxy, ha]
        | some xy =>
          obtain ⟨x, y⟩ := xy
          cases hax : atoi x with
          | none => simp [hxy, hax, ha]
          | some sx =>
            cases hay : atoi y with
            | none => simp [hxy, hax, hay, ha]
            | some sy =>
              by_cases ht : t = ['*']
              · subst ht
                simp [hxy, hax, hay, ha]
              · cases hat : atoi t with
                | none => simp [hxy, hax, hay, ha, ht, hat]
                | some tt => simp [hxy, hax, hay, ha, ht, hat]
  · rw [if_neg hpre, if_neg hpre]
    simp

/-- C6 witness: the failure characterization applied to a header missing the
`bytes ` unit. -/
theorem C6_content_range_parse_witness : parseContentRange "0-999/2600" = none :=
  (C6_content_range_parse.2.2.2.2 "0-999/2600").mpr (by decide)

/-- C3 counterexample: the header whose range part is `0--1` and whose total
part is `-1` parses successfully (Go
`strconv.Atoi` accepts negative integers) with `knownTotal = true` while
`total = -1`, and `knownRange = true` while `end = -1`, so -1 is not used as
an unknown sentinel exclusively. -/
theorem C3_sentinel_counterexample :
    parseContentRange "bytes 0--1/-1" =
      some { KnownRange := true, KnownTotal := true, Start := 0, End := -1, Total := -1 } := by
  decide

/-- C3 amended: on every successful parse, `start = -1 ∧ end = -1` holds iff
`knownRange` is false, and `knownTotal = false` implies `total = -1`; the
converse for the total (and for the end bound) fails, since explicit negative
integer components such as `-1` are accepted. -/
theorem C3_sentinel :
    ∀ (r : String) (p : ContentRange), parseContentRange r = some p →
      ((p.Start = -1 ∧ p.End = -1) ↔ p.KnownRange = false) ∧
      (p.KnownTotal = false → p.Total = -1) := by
  intro r p h
  obtain ⟨h1, h2, h3⟩ := parse_inv h
  refine ⟨⟨?_, fun hf => h1 hf⟩, h3⟩
  rintro ⟨hst, -⟩
  cases hkr : p.KnownRange
  · rfl
  · have hge := h2 hkr
    rw [hst] at hge
    norm_num at hge

/-- C3 witness: the amended statement applied to `bytes */2600`. -/
theorem C3_sentinel_witness :
    parseContentRange "bytes */2600" =
      some { KnownRange := false, KnownTotal := true, Start := -1, End := -1, Total := 2600 } ∧
    (((-1 : Int) = -1 ∧ (-1 : Int) = -1) ↔ (false : Bool) = false) :=
  ⟨by decide, (C3_sentinel "bytes */2600"
    { KnownRange := false, KnownTotal := true, Start := -1, End := -1, Total := 2600 }
    (by decide)).1⟩

/-- C4: the multipart handler, given a syntactically valid Content-Type with
boundary but a body containing zero multipart sections, dereferences the
still-nil metadata pointer (`metadata.Name`); the model marks this fatal
termination as `none` instead of an explicit error result. -/
theorem C4_multipart_zero_sections :
    multipartUpload "bucket" "" "" "" "" true [] [] = none := rfl

/-- C5: a chunk append whose Content-Range header is present but malformed
returns status 400 and leaves the whole server state — in particular the
session entry for the token, with its partial content, digests and content
type — exactly as it was. -/
theorem C5_malformed_range_keeps_session :
    ∀ (s : ServerState) (r : ChunkRequest) (o : Object),
      s.uploads r.uploadId = some o → r.contentRange ≠ "" →
      parseContentRange r.contentRange = none →
      uploadFileContent s r =
        (s, { status := 400, errorMessage := "invalid Content-Range: " ++ r.contentRange }) ∧
      (uploadFileContent s r).1.uploads r.uploadId = some o := by
  intro s r o hu hne hpn
  have hcd := commitDecision_parse_none
    (chunkObject o r.body r.contentType).Content.length hne hpn
  have heq := uploadFileContent_badRange hu hcd
  exact ⟨heq, by rw [heq]; exact hu⟩

/-- C5 witness: a malformed header `bytes x` on a live session. -/
theorem C5_malformed_range_keeps_session_witness :
    oneSessionState.uploads "t" = some (probeObject "b" "o") ∧
    parseContentRange "bytes x" = none ∧
    uploadFileContent oneSessionState
        { uploadId := "t", body := [1], contentRange := "bytes x", contentType := "c",
          no308 := false, uploadCommand := "" } =
      (oneSessionState,
        { status := 400, errorMessage := "invalid Content-Range: " ++ "bytes x" }) :=
  ⟨rfl, by decide,
   (C5_malformed_range_keeps_session oneSessionState
     { uploadId := "t", body := [1], contentRange := "bytes x", contentType := "c",
       no308 := false, uploadCommand := "" }
     (probeObject "b" "o") rfl (by decide) (by decide)).1⟩

/-- C8: the upload precondition check fails PreconditionFailed exactly when
`ifGenerationMatch = "0"` and the object exists, passes when it is `"0"` and
the object does not exist (regardless of `ifGenerationNotMatch`, which the
code never reaches in that case), fails NotImplemented exactly when
`ifGenerationMatch` is some other non-empty value or is empty with a
non-empty `ifGenerationNotMatch`, and performs no check when both are
empty. -/
theorem C8_upload_preconditions :
    ∀ (st : Buckets) (b n igm ignm : String),
      (checkUploadPreconditions st b n igm ignm =
          some { status := 412, errorMessage := "Precondition failed" } ↔
        igm = "0" ∧ GetObject st b n ≠ none) ∧
      (igm = "0" → GetObject st b n = none →
        checkUploadPreconditions st b n igm ignm = none) ∧
      (checkUploadPreconditions st b n igm ignm =
          some { status := 501, errorMessage := "Precondition support not implemented" } ↔
        igm ≠ "0" ∧ (igm ≠ "" ∨ ignm ≠ "")) ∧
      (igm = "" → ignm = "" → checkUploadPreconditions st b n igm ignm = none) := by
  intro st b n igm ignm
  unfold checkUploadPreconditions
  by_cases h0 : igm = "0"
  · rw [if_pos h0]
    cases hg : GetObject st b n with
    | none => simp [hg, h0]
    | some o => simp [hg, h0]
  · rw [if_neg h0]
    by_cases h1 : igm ≠ "" ∨ ignm ≠ ""
    · rw [if_pos h1]
      refine ⟨⟨fun h => by simp at h, fun hh => absurd hh.1 h0⟩,
        fun hh => absurd hh h0, ⟨fun _ => ⟨h0, h1⟩, fun _ => rfl⟩, fun he hne => ?_⟩
      rcases h1 with h1 | h1
      · exact absurd he h1
      · exact absurd hne h1
    · rw [if_neg h1]
      push_neg at h1
      simp [h0, h1.1, h1.2]

/-- C8 witness: the characterization applied to an existing and a missing
object under `ifGenerationMatch=0`. -/
theorem C8_upload_preconditions_witness :
    GetObject exListStore "bucket" "d" ≠ none ∧
    checkUploadPreconditions exListStore "bucket" "d" "0" "" =
      some { status := 412, errorMessage := "Precondition failed" } ∧
    GetObject exListStore "bucket" "zz" = none ∧
    checkUploadPreconditions exListStore "bucket" "zz" "0" "" = none := by
  refine ⟨by decide, ?_, by decide, ?_⟩
  · exact (C8_upload_preconditions exListStore "bucket" "d" "0" "").1.mpr ⟨rfl, by decide⟩
  · exact (C8_upload_preconditions exListStore "bucket" "zz" "0" "").2.1 rfl (by decide)

theorem commitDecision_unknownRange {cr : String} {p : ContentRange} (n : Nat)
    (hne : cr ≠ "") (hp : parseContentRange cr = some p) (hkr : p.KnownRange = false) :
    commitDecision cr n = some (true, setH [] "Range" ("bytes=0-" ++ toString n)) := by
  unfold commitDecision
  rw [if_neg hne, hp]
  simp [hkr]

/-- C7 counterexample: a non-committing chunk append whose
`X-Goog-Upload-Command` value contains the substring `upload, finalize`
without being equal to it does not receive `X-Goog-Upload-Status: final` —
the handler compares the header by equality, not containment. -/
theorem C7_noncommit_response_counterexample :
    hasSub "upload, finalize".data "x upload, finalize".data = true ∧
    (uploadFileContent oneSessionState c7CtrReq).2.status = 308 ∧
    getH (uploadFileContent oneSessionState c7CtrReq).2.header "X-Goog-Upload-Status" =
      none := by
  refine ⟨by decide, by decide, by decide⟩

/-- C7 amended: on every non-committing chunk append the session is kept
(overwritten with the new partial object) and the status is 308, or 200 with
`X-Http-Status-Code-Override: 308` when `X-Guploader-No-308` is present; and
whenever `X-Goog-Upload-Command` EQUALS `upload, finalize` (the code compares
by equality, not containment) the response carries
`X-Goog-Upload-Status: final`, whether or not the chunk committed. -/
theorem C7_noncommit_response :
    (∀ (s : ServerState) (r : ChunkRequest) (o : Object) (p : ContentRange),
      s.uploads r.uploadId = some o → r.contentRange ≠ "" →
      parseContentRange r.contentRange = some p → p.KnownRange = true →
      ¬(p.KnownTotal = true ∧ p.End + 1 ≥ p.Total) →
      (uploadFileContent s r).1.uploads r.uploadId =
          some (chunkObject o r.body r.contentType) ∧
        (uploadFileContent s r).2.status = (if r.no308 then 200 else 308) ∧
        (r.no308 = true →
          getH (uploadFileContent s r).2.header "X-Http-Status-Code-Override" =
            some "308")) ∧
    (∀ (s : ServerState) (r : ChunkRequest) (o : Object),
      s.uploads r.uploadId = some o →
      (r.contentRange = "" ∨ (parseContentRange r.contentRange).isSome = true) →
      r.uploadCommand = "upload, finalize" →
      getH (uploadFileContent s r).2.header "X-Goog-Upload-Status" = some "final") := by
  constructor
  · intro s r o p hu hne hp hkr hnc
    have hcommit : (p.KnownTotal && decide (p.End + 1 ≥ p.Total)) = false := by
      cases hkt : p.KnownTotal
      · simp
      · simp only [Bool.true_and]
        rw [decide_eq_false_iff_not]
        exact fun hge => hnc ⟨hkt, hge⟩
    have hcd := commitDecision_knownRange
      (chunkObject o r.body r.contentType).Content.length hne hp hkr
    rw [hcommit] at hcd
    rw [uploadFileContent_noncommit hu hcd]
    refine ⟨storeU_self s.uploads r.uploadId _, rfl, ?_⟩
    intro h308
    show getH (finalizeH r.uploadCommand
      (if r.no308 then setH _ "X-Http-Status-Code-Override" "308" else _)) _ = _
    rw [h308]
    unfold finalizeH
    by_cases hcmd : r.uploadCommand = "upload, finalize"
    · rw [if_pos hcmd, if_pos rfl, getH_setH_ne _ _ (by decide)]
      exact getH_setH_self _ _ _
    · rw [if_neg hcmd, if_pos rfl]
      exact getH_setH_self _ _ _
  · intro s r o hu hor hcmd
    rcases hor with hempty | hsome
    · have hcd : commitDecision r.contentRange
          (chunkObject o r.body r.contentType).Content.length = some (true, []) := by
        rw [hempty]; rfl
      rw [uploadFileContent_commit hu hcd]
      show getH (finalizeH r.uploadCommand []) _ = _
      unfold finalizeH
      rw [if_pos hcmd]
      exact getH_setH_self _ _ _
    · rw [Option.isSome_iff_exists] at hsome
      obtain ⟨p, hp⟩ := hsome
      by_cases hne : r.contentRange = ""
      · rw [hne] at hp
        rw [show parseContentRange "" = none from by decide] at hp
        exact Option.noConfusion hp
      · cases hkr : p.KnownRange with
        | false =>
          have hcd := commitDecision_unknownRange
            (chunkObject o r.body r.contentType).Content.length hne hp hkr
          rw [uploadFileContent_commit hu hcd]
          show getH (finalizeH r.uploadCommand _) _ = _
          unfold finalizeH
          rw [if_pos hcmd]
          exact getH_setH_self _ _ _
        | true =>
          have hcd := commitDecision_knownRange
            (chunkObject o r.body r.contentType).Content.length hne hp hkr
          cases hc : (p.KnownTotal && decide (p.End + 1 ≥ p.Total)) with
          | false =>
            rw [hc] at hcd
            rw [uploadFileContent_noncommit hu hcd]
            show getH (finalizeH r.uploadCommand _) _ = _
            unfold finalizeH
            rw [if_pos hcmd]
            exact getH_setH_self _ _ _
          | true =>
            rw [hc] at hcd
            rw [uploadFileContent_commit hu hcd]
            show getH (finalizeH r.uploadCommand _) _ = _
            unfold finalizeH
            rw [if_pos hcmd]
            exact getH_setH_self _ _ _

/-- C7 witness: the amended statement applied to a non-committing append with
`X-Guploader-No-308` present. -/
theorem C7_noncommit_response_witness :
    oneSessionState.uploads "t" = some (probeObject "b" "o") ∧
    parseContentRange "bytes 0-0/5" =
      some { KnownRange := true, KnownTotal := true, Start := 0, End := 0, Total := 5 } ∧
    (uploadFileContent oneSessionState c7WitReq).2.status = 200 ∧
    getH (uploadFileContent oneSessionState c7WitReq).2.header "X-Http-Status-Code-Override" =
      some "308" := by
  have h := C7_noncommit_response.1 oneSessionState c7WitReq (probeObject "b" "o")
    { KnownRange := true, KnownTotal := true, Start := 0, End := 0, Total := 5 }
    rfl (by decide) (by decide) rfl (by decide)
  exact ⟨rfl, by decide, by simpa using h.2.1, h.2.2 rfl⟩

/-- C10: resumable-upload initiation registers a partial object whose
contentType is empty and whose contentEncoding is exactly the query
parameter, regardless of the contentType/contentEncoding fields of the parsed
metadata body; and whichever chunk append commits stores an object whose
contentType is the Content-Type header of that final request. -/
theorem C10_resumable_ignores_metadata_content_type :
    (∀ (bucketName urlBase uploadID : String) (r : InitRequest) (s : ServerState),
      (resumableUpload bucketName urlBase uploadID r s).1.uploads uploadID =
          some (initObject bucketName r) ∧
        (initObject bucketName r).ContentType = "" ∧
        (initObject bucketName r).ContentEncoding = r.contentEncoding) ∧
    (∀ (s : ServerState) (r : ChunkRequest) (o : Object),
      s.uploads r.uploadId = some o →
      (uploadFileContent s r).1.uploads r.uploadId = none →
      (uploadFileContent s r).2.data = some (chunkObject o r.body r.contentType) ∧
        (chunkObject o r.body r.contentType).ContentType = r.contentType ∧
        GetObject (uploadFileContent s r).1.buckets o.BucketName o.Name =
          some (chunkObject o r.body r.contentType)) := by
  constructor
  · intro bucketName urlBase uploadID r s
    refine ⟨?_, rfl, rfl⟩
    show storeU s.uploads uploadID (initObject bucketName r) uploadID = _
    exact storeU_self _ _ _
  · intro s r o hu hdel
    cases hcd : commitDecision r.contentRange
        (chunkObject o r.body r.contentType).Content.length with
    | none =>
      rw [uploadFileContent_badRange hu hcd] at hdel
      rw [hu] at hdel
      exact Option.noConfusion hdel
    | some ch =>
      obtain ⟨commit, h0⟩ := ch
      cases commit with
      | false =>
        rw [uploadFileContent_noncommit hu hcd] at hdel
        simp [storeU] at hdel
      | true =>
        rw [uploadFileContent_commit hu hcd]
        exact ⟨rfl, rfl, GetObject_CreateObject s.buckets _⟩

/-- C10 witness: a committing chunk append with Content-Type header `ctw`. -/
theorem C10_resumable_ignores_metadata_content_type_witness :
    oneSessionState.uploads "t" = some (probeObject "b" "o") ∧
    (uploadFileContent oneSessionState c10WitReq).1.uploads "t" = none ∧
    (uploadFileContent oneSessionState c10WitReq).2.data =
      some (chunkObject (probeObject "b" "o") [5] "ctw") ∧
    (chunkObject (probeObject "b" "o") [5] "ctw").ContentType = "ctw" := by
  have hdel : (uploadFileContent oneSessionState c10WitReq).1.uploads "t" = none := rfl
  have h := C10_resumable_ignores_metadata_content_type.2 oneSessionState c10WitReq
    (probeObject "b" "o") rfl hdel
  exact ⟨rfl, hdel, h.1, h.2.1⟩

/-- C1 counterexample: on the store holding `a/b`, `a/c`, `d`, listing with
name part `a/` and delimiter `/` returns BOTH `a/b` and `a/c` (their
remainders `b` and `c` contain no `/`), not the empty list the claim
states. -/
theorem C1_list_filtering_counterexample :
    ListObjects exListStore "bucket" "a/" "/" =
      some [probeObject "bucket" "a/b", probeObject "bucket" "a/c"] ∧
    ListObjects exListStore "bucket" "a/" "/" ≠ some ([] : List Object) := by
  exact ⟨by decide, by decide⟩

/-- C1 amended: `ListObjects` keeps exactly the objects of the bucket whose
name starts with the requested name part and whose remainder does not contain
the non-empty delimiter, sorted by name ascending; on the example store both
the empty delimiter and the delimiter `/` therefore return `a/b` and `a/c`
(their remainders hold no `/`). -/
theorem C1_list_filtering :
    (∀ (st : Buckets) (b pre delim : String) (res : List Object),
      ListObjects st b pre delim = some res →
      (∀ o : Object, o ∈ res ↔ o ∈ bGetD st b ∧ pre.data.isPrefixOf o.Name.data = true ∧
          (delim = "" ∨ hasSub delim.data (replaceOnce o.Name.data pre.data) = false)) ∧
        res.Pairwise nameLe) ∧
    ListObjects exListStore "bucket" "a/" "" =
      some [probeObject "bucket" "a/b", probeObject "bucket" "a/c"] ∧
    ListObjects exListStore "bucket" "a/" "/" =
      some [probeObject "bucket" "a/b", probeObject "bucket" "a/c"] := by
  refine ⟨?_, by decide, by decide⟩
  intro st b pre delim res h
  unfold ListObjects at h
  cases hg : bGet st b with
  | none => rw [hg] at h; exact Option.noConfusion h
  | some objs =>
    rw [hg] at h
    have hres : res = (List.insertionSort nameLe objs).filter (listKeep pre delim) :=
      (Option.some_inj.mp h).symm
    subst hres
    constructor
    · intro o
      rw [List.mem_filter, (List.perm_insertionSort nameLe objs).mem_iff]
      unfold listKeep
      constructor
      · rintro ⟨hm, hk⟩
        rw [Bool.and_eq_true] at hk
        refine ⟨by simpa [bGetD, hg] using hm, hk.1, ?_⟩
        have h2 := hk.2
        rw [Bool.or_eq_true] at h2
        rcases h2 with h2 | h2
        · exact Or.inl (by simpa using h2)
        · exact Or.inr (by simpa using h2)
      · rintro ⟨hm, hp, hd⟩
        refine ⟨by simpa [bGetD, hg] using hm, ?_⟩
        rw [Bool.and_eq_true]
        refine ⟨hp, ?_⟩
        rw [Bool.or_eq_true]
        rcases hd with hd | hd
        · exact Or.inl (by simp [hd])
        · exact Or.inr (by simp [hd])
    · exact List.Pairwise.sublist (List.filter_sublist _) (List.sorted_insertionSort nameLe objs)

/-- C1 witness: the general filtering statement applied to the example
store. -/
theorem C1_list_filtering_witness :
    ListObjects exListStore "bucket" "a/" "" =
      some [probeObject "bucket" "a/b", probeObject "bucket" "a/c"] ∧
    [probeObject "bucket" "a/b", probeObject "bucket" "a/c"].Pairwise nameLe :=
  ⟨by decide,
   (C1_list_filtering.1 exListStore "bucket" "a/" ""
     [probeObject "bucket" "a/b", probeObject "bucket" "a/c"] (by decide)).2⟩

theorem bucketWF_bGetD {st : Buckets} (hwf : bucketWF st) (b : String) :
    (∀ o ∈ bGetD st b, o.BucketName = b) ∧
    (bGetD st b).Pairwise (fun x y => x.Name ≠ y.Name) := by
  cases hg : bGet st b with
  | none => simp [bGetD, hg]
  | some l0 => simpa [bGetD, hg] using hwf _ _ hg

theorem upsertList_length_of_name {l : List Object} {obj : Object} {b : String}
    (hb : ∀ o ∈ l, o.BucketName = b) (ho : obj.BucketName = b)
    (hex : ∃ o ∈ l, o.Name = obj.Name) :
    (upsertList l obj).length = l.length := by
  obtain ⟨o, hol, hname⟩ := hex
  have hq : (obj.id == o.id) = true :=
    beq_iff_eq.mpr ((objId_inj (ho.trans (hb o hol).symm)).mpr hname.symm)
  cases hfind : findIdxO (fun o => obj.id == o.id) l with
  | none => exact absurd (findIdxO_eq_none.mp hfind o hol) (by simp [hq])
  | some i =>
    unfold upsertList
    rw [hfind]
    exact List.length_set l i obj

theorem upsertList_append_of_fresh {l : List Object} {obj : Object} {b : String}
    (hb : ∀ o ∈ l, o.BucketName = b) (ho : obj.BucketName = b)
    (hfresh : ∀ o ∈ l, o.Name ≠ obj.Name) :
    upsertList l obj = l ++ [obj] := by
  have hnone : findIdxO (fun o => obj.id == o.id) l = none := by
    rw [findIdxO_eq_none]
    intro o hol
    rw [beq_eq_false_iff_ne]
    exact fun hid =>
      hfresh o hol (((objId_inj (ho.trans (hb o hol).symm)).mp hid).symm)
  unfold upsertList
  rw [hnone]

/-- C9: (bucket, name) identity is unique and `CreateObject` preserves it: on
a well-formed store an existing identity is replaced in place (bucket length
unchanged, lookup returns the new object), a fresh identity is appended, and
creating the same identity twice leaves the bucket length unchanged with
exactly one object of that name, holding the second content. -/
theorem C9_upsert_identity :
    ∀ (st : Buckets) (obj : Object), bucketWF st →
      bucketWF (CreateObject st obj) ∧
      ((∃ o ∈ bGetD st obj.BucketName, o.Name = obj.Name) →
        (bGetD (CreateObject st obj) obj.BucketName).length =
            (bGetD st obj.BucketName).length ∧
          GetObject (CreateObject st obj) obj.BucketName obj.Name = some obj) ∧
      ((∀ o ∈ bGetD st obj.BucketName, o.Name ≠ obj.Name) →
        bGetD (CreateObject st obj) obj.BucketName =
          bGetD st obj.BucketName ++ [obj]) ∧
      (∀ obj2 : Object, obj2.BucketName = obj.BucketName → obj2.Name = obj.Name →
        (bGetD (CreateObject (CreateObject st obj) obj2) obj.BucketName).length =
            (bGetD (CreateObject st obj) obj.BucketName).length ∧
          (bGetD (CreateObject (CreateObject st obj) obj2) obj.BucketName).countP
              (fun o => o.Name == obj.Name) = 1 ∧
          GetObject (CreateObject (CreateObject st obj) obj2) obj.BucketName obj.Name =
            some obj2) := by
  intro st obj hwf
  obtain ⟨hb0, hn0⟩ := bucketWF_bGetD hwf obj.BucketName
  have hwf1 := bucketWF_CreateObject hwf obj
  obtain ⟨hb1, hn1⟩ := bucketWF_bGetD hwf1 obj.BucketName
  refine ⟨hwf1, ?_, ?_, ?_⟩
  · intro hex
    refine ⟨?_, GetObject_CreateObject st obj⟩
    rw [bGetD_CreateObject_self]
    exact upsertList_length_of_name hb0 rfl hex
  · intro hfresh
    rw [bGetD_CreateObject_self]
    exact upsertList_append_of_fresh hb0 rfl hfresh
  · intro obj2 h2b h2n
    have e2 : bGetD (CreateObject (CreateObject st obj) obj2) obj.BucketName =
        upsertList (bGetD (CreateObject st obj) obj.BucketName) obj2 := by
      have := bGetD_CreateObject_self (CreateObject st obj) obj2
      rw [h2b] at this
      exact this
    have hmem : obj ∈ bGetD (CreateObject st obj) obj.BucketName := by
      rw [bGetD_CreateObject_self]
      exact obj_mem_upsertList _ obj
    refine ⟨?_, ?_, ?_⟩
    · rw [e2]
      exact upsertList_length_of_name hb1 h2b ⟨obj, hmem, h2n.symm⟩
    · rw [e2, ← h2n]
      exact upsertList_countP h2b _ hb1 hn1
    · have := GetObject_CreateObject (CreateObject st obj) obj2
      rw [h2b, h2n] at this
      exact this

/-- C9 witness: overwriting the object named `x` twice in a one-object
store. -/
theorem C9_upsert_identity_witness :
    bucketWF c9WitStore ∧
    (bGetD (CreateObject (CreateObject c9WitStore c9WitObj) c9WitObj2) "wb").countP
        (fun o => o.Name == "x") = 1 ∧
    GetObject (CreateObject (CreateObject c9WitStore c9WitObj) c9WitObj2) "wb" "x" =
      some c9WitObj2 := by
  have hwf : bucketWF c9WitStore := by
    intro b l hget
    simp only [c9WitStore, bGet] at hget
    split at hget
    · rename_i hb
      subst hb
      have hl : l = [probeObject "wb" "x"] := (Option.some_inj.mp hget).symm
      subst hl
      exact ⟨by decide, by decide⟩
    · exact Option.noConfusion hget
  have h4 := (C9_upsert_identity c9WitStore c9WitObj hwf).2.2.2 c9WitObj2 rfl rfl
  exact ⟨hwf, h4.2.1, h4.2.2⟩

/-- C2: from a fresh session, appending chunks of 1000, 1000 and 600 bytes
with Content-Range headers `bytes 0-999/2600`, `bytes 1000-1999/2600` and
`bytes 2000-2599/2600` commits only on the third (in general a known-range
chunk commits iff the total is known and `end + 1 >= total`); the first two
appends keep the session with the accumulated partial object and leave the
store untouched, and the third removes the session and stores an object whose
content is the 2600-byte concatenation of the three bodies, with crc32c and
md5Hash the encoded digests of that full concatenation. -/
theorem C2_resumable_completion :
    (∀ (s0 : ServerState) (tok : String) (obj0 : Object) (c1 c2 c3 : List Nat)
        (ct1 ct2 ct3 : String) (n1 n2 n3 : Bool) (u1 u2 u3 : String),
      s0.uploads tok = some obj0 → obj0.Content = [] →
      c1.length = 1000 → c2.length = 1000 → c3.length = 600 →
      (let s1 := (uploadFileContent s0 ⟨tok, c1, "bytes 0-999/2600", ct1, n1, u1⟩).1
       let s2 := (uploadFileContent s1 ⟨tok, c2, "bytes 1000-1999/2600", ct2, n2, u2⟩).1
       let res3 := uploadFileContent s2 ⟨tok, c3, "bytes 2000-2599/2600", ct3, n3, u3⟩
       let objF := chunkObject (chunkObject (chunkObject obj0 c1 ct1) c2 ct2) c3 ct3
       (s1.uploads tok = some (chunkObject obj0 c1 ct1) ∧ s1.buckets = s0.buckets) ∧
       (s2.uploads tok = some (chunkObject (chunkObject obj0 c1 ct1) c2 ct2) ∧
         s2.buckets = s0.buckets) ∧
       (res3.1.uploads tok = none ∧ res3.2.status = 200 ∧ res3.2.data = some objF ∧
         objF.Content = c1 ++ c2 ++ c3 ∧ objF.Content.length = 2600 ∧
         objF.Crc32c = encodedCrc32cChecksum (c1 ++ c2 ++ c3) ∧
         objF.Md5Hash = encodedMd5Hash (c1 ++ c2 ++ c3) ∧
         GetObject res3.1.buckets obj0.BucketName obj0.Name = some objF))) ∧
    (∀ (s : ServerState) (r : ChunkRequest) (o : Object) (p : ContentRange),
      s.uploads r.uploadId = some o → r.contentRange ≠ "" →
      parseContentRange r.contentRange = some p → p.KnownRange = true →
      ((uploadFileContent s r).1.uploads r.uploadId = none ↔
        (p.KnownTotal = true ∧ p.End + 1 ≥ p.Total))) := by
  constructor
  · intro s0 tok obj0 c1 c2 c3 ct1 ct2 ct3 n1 n2 n3 u1 u2 u3 hu hC hl1 hl2 hl3
    dsimp only
    have hp1 : parseContentRange "bytes 0-999/2600" =
        some { KnownRange := true, KnownTotal := true, Start := 0, End := 999,
               Total := 2600 } := by decide
    have hcd1 : commitDecision "bytes 0-999/2600"
        (chunkObject obj0 c1 ct1).Content.length = some (false, [("Range", "bytes=0-999")]) :=
      (commitDecision_knownRange _ (by decide) hp1 rfl).trans (by decide)
    have hstep1 := uploadFileContent_noncommit
      (r := ⟨tok, c1, "bytes 0-999/2600", ct1, n1, u1⟩) hu hcd1
    have hu2 : ((uploadFileContent s0 ⟨tok, c1, "bytes 0-999/2600", ct1, n1, u1⟩).1).uploads
        tok = some (chunkObject obj0 c1 ct1) := by
      rw [hstep1]; exact storeU_self _ _ _
    have hp2 : parseContentRange "bytes 1000-1999/2600" =
        some { KnownRange := true, KnownTotal := true, Start := 1000, End := 1999,
               Total := 2600 } := by decide
    have hcd2 : commitDecision "bytes 1000-1999/2600"
        (chunkObject (chunkObject obj0 c1 ct1) c2 ct2).Content.length =
        some (false, [("Range", "bytes=0-1999")]) :=
      (commitDecision_knownRange _ (by decide) hp2 rfl).trans (by decide)
    have hstep2 := uploadFileContent_noncommit
      (r := ⟨tok, c2, "bytes 1000-1999/2600", ct2, n2, u2⟩) hu2 hcd2
    have hu3 : ((uploadFileContent
        ((uploadFileContent s0 ⟨tok, c1, "bytes 0-999/2600", ct1, n1, u1⟩).1)
        ⟨tok, c2, "bytes 1000-1999/2600", ct2, n2, u2⟩).1).uploads tok =
        some (chunkObject (chunkObject obj0 c1 ct1) c2 ct2) := by
      rw [hstep2]; exact storeU_self _ _ _
    have hp3 : parseContentRange "bytes 2000-2599/2600" =
        some { KnownRange := true, KnownTotal := true, Start := 2000, End := 2599,
               Total := 2600 } := by decide
    have hcd3 : commitDecision "bytes 2000-2599/2600"
        (chunkObject (chunkObject (chunkObject obj0 c1 ct1) c2 ct2) c3 ct3).Content.length =
        some (true, [("Range", "bytes=0-2599")]) :=
      (commitDecision_knownRange _ (by decide) hp3 rfl).trans (by decide)
    have hstep3 := uploadFileContent_commit
      (r := ⟨tok, c3, "bytes 2000-2599/2600", ct3, n3, u3⟩) hu3 hcd3
    refine ⟨⟨hu2, ?_⟩, ⟨hu3, ?_⟩, ?_, ?_, ?_, ?_, ?_, ?_, ?_, ?_⟩
    · rw [hstep1]
    · rw [hstep2]
      show ((uploadFileContent s0 ⟨tok, c1, "bytes 0-999/2600", ct1, n1, u1⟩).1).buckets =
        s0.buckets
      rw [hstep1]
    · rw [hstep3]
      exact deleteU_self _ _
    · rw [hstep3]
    · rw [hstep3]
    · simp [chunkObject, hC]
    · simp [chunkObject, hC, hl1, hl2, hl3]
    · simp [chunkObject, hC]
    · simp [chunkObject, hC]
    · rw [hstep3]
      exact GetObject_CreateObject _ _
  · intro s r o p hu hne hp hkr
    have hcd := commitDecision_knownRange
      (chunkObject o r.body r.contentType).Content.length hne hp hkr
    cases hb : (p.KnownTotal && decide (p.End + 1 ≥ p.Total)) with
    | true =>
      rw [hb] at hcd
      rw [uploadFileContent_commit hu hcd]
      rw [Bool.and_eq_true] at hb
      constructor
      · intro _
        exact ⟨hb.1, of_decide_eq_true hb.2⟩
      · intro _
        exact deleteU_self _ _
    | false =>
      rw [hb] at hcd
      rw [uploadFileContent_noncommit hu hcd]
      constructor
      · intro hcontra
        simp [storeU] at hcontra
      · rintro ⟨hkt, hge⟩
        rw [hkt, Bool.true_and] at hb
        exact absurd hge (of_decide_eq_false hb)

/-- C2 witness: the scenario run on a concrete session with three concrete
chunk bodies of lengths 1000, 1000 and 600. -/
theorem C2_resumable_completion_witness :
    c2WitState.uploads "tk" = some (probeObject "wb" "wo") ∧
    (probeObject "wb" "wo").Content = [] ∧
    (List.replicate 1000 7).length = 1000 ∧
    (List.replicate 1000 8).length = 1000 ∧
    (List.replicate 600 9).length = 600 ∧
    (uploadFileContent
        (uploadFileContent (uploadFileContent c2WitState c2Wit1).1 c2Wit2).1
        c2Wit3).1.uploads "tk" = none := by
  have h := C2_resumable_completion.1 c2WitState "tk" (probeObject "wb" "wo")
    (List.replicate 1000 7) (List.replicate 1000 8) (List.replicate 600 9)
    "" "" "" false false false "" "" ""
    rfl rfl (by rw [List.length_replicate]) (by rw [List.length_replicate])
    (by rw [List.length_replicate])
  exact ⟨rfl, rfl, by rw [List.length_replicate], by rw [List.length_replicate],
    by rw [List.length_replicate], h.2.2.1⟩
